import Mathlib

/-!
Shallow embedding of the FIFA World Cup 2026 draw simulator
(src/code/config.py and src/code/simulator.py) and verification of its
specification's claims.

Python dictionaries with string keys are modelled as Lean functions
(`dict.get(k, default)` becomes function application, with the default
built into the function for absent keys); the four pot keys
`'Pot 1' .. 'Pot 4'` are modelled by the enumeration `PotName`.
The ambient global random generator (`random.shuffle`, `random.choice`)
is modelled as an injected randomness source whose state is threaded
explicitly through every call, in the exact order the source performs
its random draws.
-/

abbrev Team := String
abbrev Conf := String
abbrev GroupId := String

/-- The four keys `'Pot 1'`..`'Pot 4'` of the pot dictionaries in the source. -/
inductive PotName
  | pot1
  | pot2
  | pot3
  | pot4
deriving DecidableEq

/-- config.py line 16: `GROUPS = ['A', ..., 'L']`. -/
def GROUPS : List GroupId := ["A", "B", "C", "D", "E", "F", "G", "H", "I", "J", "K", "L"]

/-- config.py line 22. -/
def MAX_UEFA_PER_GROUP : Nat := 2

/-- config.py line 23. -/
def MAX_OTHER_CONF_PER_GROUP : Nat := 1

/-- config.py lines 29-33: `FIXED_HOSTS`, in dict insertion order. -/
def FIXED_HOSTS : List (Team × GroupId) :=
  [("Mexico", "A"), ("Canada", "B"), ("United States", "D")]

/-- config.py line 40. -/
def MAX_ATTEMPTS_PER_SIMULATION : Nat := 1000

/-- `conf_dict`: team → list of confederation labels; a team absent from the
Python dict is modelled as being mapped to `[]` (the `.get(team, [])` default). -/
abbrev ConfDict := Team → List Conf

/-- `pot_dict`: the four pot lists. -/
structure PotDict where
  pot1 : List Team
  pot2 : List Team
  pot3 : List Team
  pot4 : List Team

def PotDict.teams (pd : PotDict) : PotName → List Team
  | .pot1 => pd.pot1
  | .pot2 => pd.pot2
  | .pot3 => pd.pot3
  | .pot4 => pd.pot4

/-- simulator.py lines 34-38: the `conf_counter` tally of one confederation
label over the teams already in a group. -/
def confTally (conf_dict : ConfDict) (ts : List Team) (c : Conf) : Nat :=
  (ts.flatMap conf_dict).count c

/-- simulator.py lines 11-51: `can_team_go_to_group`. -/
def can_team_go_to_group (team : Team) (group : GroupId)
    (groups_formed : GroupId → List Team) (conf_dict : ConfDict) : Bool :=
  let team_confederations := conf_dict team
  if team_confederations = [] then
    true
  else
    team_confederations.all fun conf =>
      if conf = "UEFA" then
        decide (confTally conf_dict (groups_formed group) conf < MAX_UEFA_PER_GROUP)
      else
        decide (confTally conf_dict (groups_formed group) conf < MAX_OTHER_CONF_PER_GROUP)

/-- simulator.py lines 54-79: `get_available_groups_for_team`.
`groups_filled_by_pot` is the per-pot set of already-filled groups,
modelled as a list (only membership is ever consulted). -/
def get_available_groups_for_team (team : Team) (pot_name : PotName)
    (groups_formed : GroupId → List Team) (groups_filled_by_pot : PotName → List GroupId)
    (conf_dict : ConfDict) : List GroupId :=
  GROUPS.filter fun group =>
    decide (group ∉ groups_filled_by_pot pot_name) &&
      can_team_go_to_group team group groups_formed conf_dict

/-- The per-attempt draw state: simulator.py lines 97-105
(`groups_formed` and `groups_filled_by_pot`). -/
structure DrawState where
  groupsFormed : GroupId → List Team
  filled : PotName → List GroupId

/-- simulator.py lines 97-105: empty groups, empty filled sets. -/
def DrawState.init : DrawState := ⟨fun _ => [], fun _ => []⟩

/-- One committed placement: `groups_formed[g].append(t)` plus
`groups_filled_by_pot[p].add(g)`. -/
def DrawState.assign (st : DrawState) (p : PotName) (g : GroupId) (t : Team) : DrawState :=
  { groupsFormed := fun g' => if g' = g then st.groupsFormed g' ++ [t] else st.groupsFormed g'
    filled := fun q => if q = p then st.filled q ++ [g] else st.filled q }

/-- The injected randomness source: `random.shuffle` (returning the permuted
list) and `random.choice`, sharing one generator state `σ`. -/
structure RandSource (σ : Type) where
  shuffle : σ → List Team → List Team × σ
  choice : σ → List GroupId → GroupId × σ

/-- simulator.py lines 112-118: place the fixed hosts that are present in the
given Pot 1 team list, returning the remaining teams and the updated state.
This stage consults no randomness source. -/
def placeHosts : List (Team × GroupId) → List Team → DrawState → List Team × DrawState
  | [], pot_teams, st => (pot_teams, st)
  | (host, fixed_group) :: hs, pot_teams, st =>
    if host ∈ pot_teams then
      placeHosts hs (pot_teams.erase host) (st.assign .pot1 fixed_group host)
    else
      placeHosts hs pot_teams st

/-- simulator.py lines 124-134 and 147-158: place each team of the list in
order; on an empty availability the attempt dead-ends (`none`), with the
randomness state as consumed so far. -/
def placePot {σ : Type} (R : RandSource σ) (cd : ConfDict) (p : PotName) :
    List Team → DrawState → σ → Option DrawState × σ
  | [], st, s => (some st, s)
  | team :: ts, st, s =>
    let available := get_available_groups_for_team team p st.groupsFormed st.filled cd
    if available = [] then
      (none, s)
    else
      let ch := R.choice s available
      placePot R cd p ts (st.assign p ch.1 team) ch.2

/-- simulator.py lines 144-158: one non-seeded pot phase: shuffle the pot's
teams, then place them; a dead end already recorded (`none`) passes through
untouched (the Python loop has been exited). -/
def runPot {σ : Type} (R : RandSource σ) (cd : ConfDict) (pd : PotDict) (p : PotName) :
    Option DrawState × σ → Option DrawState × σ
  | (none, s) => (none, s)
  | (some st, s) =>
    let sh := R.shuffle s (pd.teams p)
    placePot R cd p sh.1 st sh.2

/-- simulator.py line 143: `for pot_name in ['Pot 4', 'Pot 3', 'Pot 2']`. -/
def processPots {σ : Type} (R : RandSource σ) (cd : ConfDict) (pd : PotDict) :
    List PotName → Option DrawState × σ → Option DrawState × σ
  | [], acc => acc
  | p :: ps, acc => processPots R cd pd ps (runPot R cd pd p acc)

/-- simulator.py lines 107-134: Phase 1 — fixed hosts, then shuffle and place
the remaining Pot 1 teams. -/
def pot1Phase {σ : Type} (R : RandSource σ) (cd : ConfDict) (pd : PotDict) (s : σ) :
    Option DrawState × σ :=
  let hp := placeHosts FIXED_HOSTS pd.pot1 DrawState.init
  let sh := R.shuffle s hp.1
  placePot R cd .pot1 sh.1 hp.2 sh.2

/-- simulator.py lines 96-165: one complete draw attempt. -/
def attemptDraw {σ : Type} (R : RandSource σ) (cd : ConfDict) (pd : PotDict) (s : σ) :
    Option DrawState × σ :=
  processPots R cd pd [.pot4, .pot3, .pot2] (pot1Phase R cd pd s)

/-- simulator.py lines 95-168: the retry loop of `simulate_single_draw`,
also returning the randomness state (the advanced global generator). -/
def simulateAux {σ : Type} (R : RandSource σ) (cd : ConfDict) (pd : PotDict) :
    Nat → σ → Option (GroupId → List Team) × σ
  | 0, s => (none, s)
  | n + 1, s =>
    let a := attemptDraw R cd pd s
    match a.1 with
    | some st => (some st.groupsFormed, a.2)
    | none => simulateAux R cd pd n a.2

/-- simulator.py lines 82-168: `simulate_single_draw`. -/
def simulate_single_draw {σ : Type} (R : RandSource σ) (cd : ConfDict) (pd : PotDict)
    (max_attempts : Nat) (s : σ) : Option (GroupId → List Team) :=
  (simulateAux R cd pd max_attempts s).1

/-! Concrete data used by witnesses: a synthetic instance with 12 teams per
pot, all confederation label lists empty (every placement admissible). -/

def cdW : ConfDict := fun _ => []

def pdW : PotDict :=
  { pot1 := ["Mexico", "Canada", "United States", "d1", "e1", "f1",
             "g1", "h1", "i1", "j1", "k1", "l1"]
    pot2 := ["a2", "b2", "c2", "d2", "e2", "f2", "g2", "h2", "i2", "j2", "k2", "l2"]
    pot3 := ["a3", "b3", "c3", "d3", "e3", "f3", "g3", "h3", "i3", "j3", "k3", "l3"]
    pot4 := ["a4", "b4", "c4", "d4", "e4", "f4", "g4", "h4", "i4", "j4", "k4", "l4"] }

/-- The "always pick the first element" randomness stub of the spec:
identity permutation, first-element choice. -/
def firstRand : RandSource Unit :=
  { shuffle := fun s l => (l, s)
    choice := fun s l => (l.headD "", s) }

/-- A randomness source that always returns the first element of any
candidate sequence: shuffling is the identity permutation and choice
takes the head. -/
def FirstElementSource {σ : Type} (R : RandSource σ) : Prop :=
  (∀ s l, (R.shuffle s l).1 = l) ∧ (∀ s l, (R.choice s l).1 = l.headD "")

/-! C7: the retry loop — failure iff every attempt dead-ends, each attempt
restarted from scratch, never more than the budget. -/

/-- The randomness state after running `k` (failed or not) attempts. -/
def attemptIter {σ : Type} (R : RandSource σ) (cd : ConfDict) (pd : PotDict) :
    Nat → σ → σ
  | 0, s => s
  | k + 1, s => attemptIter R cd pd k (attemptDraw R cd pd s).2

/-- The first `k` attempts, starting at randomness state `s`, all dead-end.
Each attempt is `attemptDraw`, which by construction starts from the fresh
state `DrawState.init` and carries nothing over except the advanced
randomness state. -/
def attemptsFail {σ : Type} (R : RandSource σ) (cd : ConfDict) (pd : PotDict) :
    Nat → σ → Prop
  | 0, _ => True
  | k + 1, s =>
    (attemptDraw R cd pd s).1 = none ∧ attemptsFail R cd pd k (attemptDraw R cd pd s).2

/-- The 48 teams are split over pairwise disjoint pots (validated input:
no team is listed in two different pots). -/
def PotsDisjoint (pd : PotDict) : Prop :=
  (∀ t ∈ pd.pot1, t ∉ pd.pot2 ∧ t ∉ pd.pot3 ∧ t ∉ pd.pot4) ∧
  (∀ t ∈ pd.pot2, t ∉ pd.pot3 ∧ t ∉ pd.pot4) ∧
  (∀ t ∈ pd.pot3, t ∉ pd.pot4)

/-! C2: confederation caps in every group of a successful draw. -/

/-- Number of teams in `ts` carrying confederation label `c` (a playoff team
counts for each label it carries, but a single team counts once per label). -/
def confTeamCount (cd : ConfDict) (ts : List Team) (c : Conf) : Nat :=
  ts.countP (fun t => decide (c ∈ cd t))

/-- The per-group cap for a confederation label (config.py lines 22-23). -/
def confCap (c : Conf) : Nat :=
  if c = "UEFA" then MAX_UEFA_PER_GROUP else MAX_OTHER_CONF_PER_GROUP

/-- The running per-group confederation bound. -/
def ConfOK (cd : ConfDict) (st : DrawState) : Prop :=
  ∀ (g : GroupId) (c : Conf), confTeamCount cd (st.groupsFormed g) c ≤ confCap c

/-! C1: group sizes and one-team-per-pot in every successful draw. -/

/-- The running bookkeeping invariant tying group occupancy to the per-pot
filled sets: filled sets are duplicate-free lists of valid groups, each
group holds as many teams of pot `p` as the number of times it occurs in
the filled set of `p`, and every placed team belongs to some pot. -/
def PotCounts (pd : PotDict) (st : DrawState) : Prop :=
  (∀ p, (st.filled p).Nodup) ∧
  (∀ p, ∀ g ∈ st.filled p, g ∈ GROUPS) ∧
  (∀ (p : PotName) (g : GroupId),
    (st.groupsFormed g).countP (fun t => decide (t ∈ pd.teams p)) = (st.filled p).count g) ∧
  (∀ g, ∀ t ∈ st.groupsFormed g, t ∈ pd.pot1 ∨ t ∈ pd.pot2 ∨ t ∈ pd.pot3 ∨ t ∈ pd.pot4)

/-! C8: the Mass Simulation Driver (simulator.py lines 171-279,
`run_mass_simulation`), modelled without the out-of-scope progress/printing
code: the frequency table for the target team's combinations, the success
counter and the failure counter. -/

/-- The per-pot slots filled while classifying the target group's four
occupants (simulator.py lines 235-250); later occupants of the same pot
overwrite earlier ones, exactly as the Python loop does. -/
structure PotSlots where
  p1 : Option Team
  p2 : Option Team
  p3 : Option Team
  p4 : Option Team

/-- simulator.py lines 240-250: classify each team of a group by its pot
according to the `df_pots` lookup. -/
def scanPots (df_pots : Team → PotName) : List Team → PotSlots → PotSlots
  | [], acc => acc
  | t :: ts, acc =>
    match df_pots t with
    | .pot1 => scanPots df_pots ts { acc with p1 := some t }
    | .pot2 => scanPots df_pots ts { acc with p2 := some t }
    | .pot3 => scanPots df_pots ts { acc with p3 := some t }
    | .pot4 => scanPots df_pots ts { acc with p4 := some t }

/-- simulator.py line 253: the combination key `(pot2_team, pot3_team,
pot4_team)`; a slot never assigned stays `None`. -/
abbrev CombKey := Option Team × Option Team × Option Team

/-- `combinations_counter[combination] += 1` on a `defaultdict(int)`,
modelled on an association list in insertion order: an absent key enters
with count 1 at the end, a present key's count is bumped in place. -/
def incKey : List (CombKey × Nat) → CombKey → List (CombKey × Nat)
  | [], k => [(k, 1)]
  | (k', m) :: rest, k =>
    if k' = k then (k', m + 1) :: rest else (k', m) :: incKey rest k

/-- The driver's accumulated outputs. -/
structure MassAcc where
  combinations : List (CombKey × Nat)
  successful : Nat
  failed : Nat

/-- simulator.py lines 226-258: processing of one simulation result. -/
def massStep (df_pots : Team → PotName) (target : Team) (acc : MassAcc) :
    Option (GroupId → List Team) → MassAcc
  | none => { acc with failed := acc.failed + 1 }
  | some gf =>
    let acc' := { acc with successful := acc.successful + 1 }
    match GROUPS.find? (fun g => decide (target ∈ gf g)) with
    | none => acc'
    | some g =>
      let slots := scanPots df_pots (gf g) ⟨none, none, none, none⟩
      { acc' with combinations := incKey acc'.combinations (slots.p2, slots.p3, slots.p4) }

/-- simulator.py lines 214-258: the main loop of `run_mass_simulation`. -/
def massAux {σ : Type} (R : RandSource σ) (cd : ConfDict) (pd : PotDict)
    (df_pots : Team → PotName) (target : Team) :
    Nat → σ → MassAcc → MassAcc × σ
  | 0, s, acc => (acc, s)
  | num + 1, s, acc =>
    let r := simulateAux R cd pd MAX_ATTEMPTS_PER_SIMULATION s
    massAux R cd pd df_pots target num r.2 (massStep df_pots target acc r.1)

/-- simulator.py lines 171-279: `run_mass_simulation` (returning also the
advanced generator state). -/
def run_mass_simulation {σ : Type} (R : RandSource σ) (cd : ConfDict) (pd : PotDict)
    (df_pots : Team → PotName) (target : Team) (num_simulations : Nat) (s : σ) :
    MassAcc × σ :=
  massAux R cd pd df_pots target num_simulations s ⟨[], 0, 0⟩

/-- Sum of all counts in the frequency table. -/
def sumCounts (tab : List (CombKey × Nat)) : Nat :=
  (tab.map Prod.snd).sum

/-- The group assignment computed by the first-element stub on the
synthetic instance. -/
def gfW : GroupId → List Team :=
  (simulate_single_draw firstRand cdW pdW 1 ()).getD (fun _ => [])

/-- The team → pot lookup of the synthetic instance. -/
def dfW : Team → PotName := fun t =>
  if t ∈ pdW.pot1 then .pot1
  else if t ∈ pdW.pot2 then .pot2
  else if t ∈ pdW.pot3 then .pot3
  else .pot4

/-! Theorems: shared helper lemmas, then one theorem per claim with its witness. -/

/-! Helper lemmas shared across the claims. -/

theorem mem_available_iff {team : Team} {p : PotName} {gF : GroupId → List Team}
    {fbp : PotName → List GroupId} {cd : ConfDict} {g : GroupId} :
    g ∈ get_available_groups_for_team team p gF fbp cd ↔
      g ∈ GROUPS ∧ g ∉ fbp p ∧ can_team_go_to_group team g gF cd = true := by
  simp [get_available_groups_for_team, List.mem_filter, and_assoc]

theorem can_go_iff {team : Team} {group : GroupId} {gF : GroupId → List Team} {cd : ConfDict} :
    can_team_go_to_group team group gF cd = true ↔
      (cd team = [] ∨
        ∀ c ∈ cd team,
          if c = "UEFA" then confTally cd (gF group) c < MAX_UEFA_PER_GROUP
          else confTally cd (gF group) c < MAX_OTHER_CONF_PER_GROUP) := by
  unfold can_team_go_to_group
  by_cases h : cd team = []
  · simp [h]
  · simp only [h, if_false, List.all_eq_true, iff_def]
    constructor
    · intro hall
      refine Or.inr fun c hc => ?_
      have := hall c hc
      by_cases hu : c = "UEFA" <;> simp [hu] at this ⊢ <;> exact this
    · rintro (hc | hall) c hc'
      · exact hc.elim
      · have := hall c hc'
        by_cases hu : c = "UEFA" <;> simp [hu] at this ⊢ <;> exact this

/-- C3: `can_team_go_to_group` returns `true` iff the team's confederation
label list is empty (absent from `conf_dict`), or every label it carries has
a current tally in the target group strictly below 2 for `"UEFA"` and
strictly below 1 for any other label.  The function is a pure Lean
function of its arguments, so it mutates none of its inputs by
construction. -/
theorem claim_C3 (team : Team) (group : GroupId) (gF : GroupId → List Team) (cd : ConfDict) :
    can_team_go_to_group team group gF cd = true ↔
      (cd team = [] ∨
        ∀ c ∈ cd team,
          if c = "UEFA" then confTally cd (gF group) c < 2
          else confTally cd (gF group) c < 1) :=
  can_go_iff

/-- Witness for C3 at a concrete input: a group already holding two teams of
confederation `"X"` rejects a third carrier of `"X"`. -/
theorem claim_C3_witness :
    (can_team_go_to_group "t" "A"
        (fun _ => ["u", "v"]) (fun _ => ["X"]) = true ↔
      ((fun _ : Team => ["X"]) "t" = ([] : List Conf) ∨
        ∀ c ∈ (fun _ : Team => ["X"]) "t",
          if c = "UEFA" then
            confTally (fun _ => ["X"]) ((fun _ : GroupId => ["u", "v"]) "A") c < 2
          else confTally (fun _ => ["X"]) ((fun _ : GroupId => ["u", "v"]) "A") c < 1)) :=
  claim_C3 "t" "A" (fun _ => ["u", "v"]) (fun _ => ["X"])

/-- C5: membership in the result of `get_available_groups_for_team` is
exactly: the group is one of the 12 configured groups, it is not already
filled for the team's pot, and the constraint checker admits the team
against that group's current occupants; and the result can be empty
(shown at a state where all groups are filled for the pot). -/
theorem claim_C5 :
    (∀ (team : Team) (p : PotName) (gF : GroupId → List Team)
        (fbp : PotName → List GroupId) (cd : ConfDict) (g : GroupId),
      g ∈ get_available_groups_for_team team p gF fbp cd ↔
        g ∈ GROUPS ∧ g ∉ fbp p ∧ can_team_go_to_group team g gF cd = true) ∧
    get_available_groups_for_team "t" .pot1 (fun _ => [])
      (fun _ => GROUPS) (fun _ => []) = [] := by
  refine ⟨fun team p gF fbp cd g => mem_available_iff, ?_⟩
  decide

theorem firstRand_firstElement : FirstElementSource firstRand :=
  ⟨fun _ _ => rfl, fun _ _ => rfl⟩

/-! C10: order and freedom from duplicates of the availability list. -/

theorem GROUPS_nodup : GROUPS.Nodup := by decide

theorem head_filter_eq_find {α : Type} (p : α → Bool) :
    ∀ l : List α, (l.filter p).head? = l.find? p := by
  intro l
  induction l with
  | nil => rfl
  | cons a t ih =>
    by_cases h : p a = true
    · simp [List.filter_cons, List.find?_cons, h]
    · simp only [Bool.not_eq_true] at h
      simp [List.filter_cons, List.find?_cons, h, ih]

/-- C10: the availability list is duplicate-free and is an order-preserving
sublist of the fixed configured list of group labels `'A'..'L'` (one single
traversal of `GROUPS`), and its head is the first group of the
alphabetically ordered `GROUPS` list that is unfilled for the pot and
admissible — i.e. the alphabetically earliest admissible unfilled group. -/
theorem claim_C10 (team : Team) (p : PotName) (gF : GroupId → List Team)
    (fbp : PotName → List GroupId) (cd : ConfDict) :
    (get_available_groups_for_team team p gF fbp cd).Nodup ∧
    (get_available_groups_for_team team p gF fbp cd).Sublist GROUPS ∧
    (get_available_groups_for_team team p gF fbp cd).head? =
      GROUPS.find? (fun g =>
        decide (g ∉ fbp p) && can_team_go_to_group team g gF cd) := by
  have hsub : (get_available_groups_for_team team p gF fbp cd).Sublist GROUPS :=
    List.filter_sublist GROUPS
  exact ⟨hsub.nodup GROUPS_nodup, hsub, head_filter_eq_find _ GROUPS⟩

/-- Witness for C10 at a concrete input: `"B"` is filled for Pot 1, so the
head of the availability list is `"A"`. -/
theorem claim_C10_witness :
    (get_available_groups_for_team "t" .pot1 (fun _ => []) (fun _ => ["B"]) cdW).Nodup ∧
    (get_available_groups_for_team "t" .pot1 (fun _ => []) (fun _ => ["B"]) cdW).Sublist GROUPS ∧
    (get_available_groups_for_team "t" .pot1 (fun _ => []) (fun _ => ["B"]) cdW).head? =
      GROUPS.find? (fun g =>
        decide (g ∉ (fun _ : PotName => ["B"]) PotName.pot1) &&
          can_team_go_to_group "t" g (fun _ => []) cdW) :=
  claim_C10 "t" .pot1 (fun _ => []) (fun _ => ["B"]) cdW

/-! C6: fixed pot processing order and abort-on-dead-end. -/

theorem processPots_none {σ : Type} (R : RandSource σ) (cd : ConfDict) (pd : PotDict) :
    ∀ (ps : List PotName) (s : σ), processPots R cd pd ps (none, s) = (none, s) := by
  intro ps
  induction ps with
  | nil => intro s; rfl
  | cons p ps ih => intro s; exact ih s

/-- C6: every attempt processes the pots in the exact fixed order — the
seeded Pot 1 phase first (`pot1Phase`), then the non-seeded pots in the
literal order `[Pot 4, Pot 3, Pot 2]` — and a dead end recorded at any
point makes every remaining pot phase a no-op, so the whole attempt
aborts with an absent result; in particular a dead end in the Pot 1
phase already makes the attempt fail. -/
theorem claim_C6 {σ : Type} (R : RandSource σ) (cd : ConfDict) (pd : PotDict) (s : σ) :
    attemptDraw R cd pd s =
      processPots R cd pd [.pot4, .pot3, .pot2] (pot1Phase R cd pd s) ∧
    (∀ (ps : List PotName) (s' : σ), processPots R cd pd ps (none, s') = (none, s')) ∧
    ((pot1Phase R cd pd s).1 = none → (attemptDraw R cd pd s).1 = none) := by
  refine ⟨rfl, processPots_none R cd pd, ?_⟩
  intro h
  have heta : pot1Phase R cd pd s = (none, (pot1Phase R cd pd s).2) := by
    rw [← h]
  rw [attemptDraw, heta, processPots_none]

/-- Witness for C6 at a concrete input. -/
theorem claim_C6_witness :
    attemptDraw firstRand cdW pdW () =
      processPots firstRand cdW pdW [.pot4, .pot3, .pot2] (pot1Phase firstRand cdW pdW ()) ∧
    (∀ (ps : List PotName) (s' : Unit),
      processPots firstRand cdW pdW ps (none, s') = (none, s')) ∧
    ((pot1Phase firstRand cdW pdW ()).1 = none →
      (attemptDraw firstRand cdW pdW ()).1 = none) :=
  claim_C6 firstRand cdW pdW ()

theorem simulateAux_succ_of_some {σ : Type} {R : RandSource σ} {cd : ConfDict}
    {pd : PotDict} {n : Nat} {s : σ} {st : DrawState}
    (h : (attemptDraw R cd pd s).1 = some st) :
    simulateAux R cd pd (n + 1) s = (some st.groupsFormed, (attemptDraw R cd pd s).2) := by
  simp [simulateAux, h]

theorem simulateAux_succ_of_none {σ : Type} {R : RandSource σ} {cd : ConfDict}
    {pd : PotDict} {n : Nat} {s : σ}
    (h : (attemptDraw R cd pd s).1 = none) :
    simulateAux R cd pd (n + 1) s = simulateAux R cd pd n (attemptDraw R cd pd s).2 := by
  simp [simulateAux, h]

theorem simulateAux_none_iff {σ : Type} (R : RandSource σ) (cd : ConfDict) (pd : PotDict) :
    ∀ (n : Nat) (s : σ),
      (simulateAux R cd pd n s).1 = none ↔ attemptsFail R cd pd n s := by
  intro n
  induction n with
  | zero => intro s; simp [simulateAux, attemptsFail]
  | succ n ih =>
    intro s
    rcases h : (attemptDraw R cd pd s).1 with _ | st
    · rw [simulateAux_succ_of_none h]
      simp [attemptsFail, h, ih]
    · rw [simulateAux_succ_of_some h]
      simp [attemptsFail, h]

theorem simulateAux_some_iff {σ : Type} (R : RandSource σ) (cd : ConfDict) (pd : PotDict) :
    ∀ (n : Nat) (s : σ) (gf : GroupId → List Team),
      (simulateAux R cd pd n s).1 = some gf ↔
        ∃ k, k < n ∧ attemptsFail R cd pd k s ∧
          ∃ st, (attemptDraw R cd pd (attemptIter R cd pd k s)).1 = some st ∧
            gf = st.groupsFormed := by
  intro n
  induction n with
  | zero => intro s gf; simp [simulateAux]
  | succ n ih =>
    intro s gf
    rcases h : (attemptDraw R cd pd s).1 with _ | st
    · rw [simulateAux_succ_of_none h, ih]
      constructor
      · rintro ⟨k, hk, hfail, st, hst, hgf⟩
        exact ⟨k + 1, by omega, ⟨h, hfail⟩, st, hst, hgf⟩
      · rintro ⟨k, hk, hfail, st, hst, hgf⟩
        rcases k with _ | k
        · rw [attemptIter] at hst
          rw [h] at hst
          exact absurd hst (by simp)
        · exact ⟨k, by omega, hfail.2, st, by rw [attemptIter] at hst; exact hst, hgf⟩
    · rw [simulateAux_succ_of_some h]
      constructor
      · intro hgf
        refine ⟨0, by omega, trivial, st, ?_, ?_⟩
        · rw [attemptIter]; exact h
        · simpa [eq_comm] using hgf
      · rintro ⟨k, hk, hfail, st', hst, hgf⟩
        rcases k with _ | k
        · rw [attemptIter] at hst
          rw [h] at hst
          simp only [Option.some.injEq] at hst
          subst hst
          simpa [eq_comm] using hgf
        · exact absurd hfail.1 (by rw [h]; simp)

/-- C7: `simulate_single_draw` returns an absent result exactly when each of
the up-to-`max_attempts` attempts dead-ends, and it returns a group
assignment exactly when some attempt `k` strictly inside the budget
succeeds after the first `k` attempts all failed; every attempt is
`attemptDraw`, a function of the static inputs and the current randomness
state alone, starting from the fresh empty `DrawState.init` with no partial
work carried over. -/
theorem claim_C7 {σ : Type} (R : RandSource σ) (cd : ConfDict) (pd : PotDict)
    (n : Nat) (s : σ) (gf : GroupId → List Team) :
    (simulate_single_draw R cd pd n s = none ↔ attemptsFail R cd pd n s) ∧
    (simulate_single_draw R cd pd n s = some gf ↔
      ∃ k, k < n ∧ attemptsFail R cd pd k s ∧
        ∃ st, (attemptDraw R cd pd (attemptIter R cd pd k s)).1 = some st ∧
          gf = st.groupsFormed) :=
  ⟨simulateAux_none_iff R cd pd n s, simulateAux_some_iff R cd pd n s gf⟩

/-- Witness for C7 at a concrete input (budget 0: always absent). -/
theorem claim_C7_witness :
    (simulate_single_draw firstRand cdW pdW 0 () = none ↔
      attemptsFail firstRand cdW pdW 0 ()) ∧
    (simulate_single_draw firstRand cdW pdW 0 () = some (fun _ => []) ↔
      ∃ k, k < 0 ∧ attemptsFail firstRand cdW pdW k () ∧
        ∃ st, (attemptDraw firstRand cdW pdW (attemptIter firstRand cdW pdW k ())).1 =
            some st ∧ (fun _ : GroupId => ([] : List Team)) = st.groupsFormed) :=
  claim_C7 firstRand cdW pdW 0 () (fun _ => [])

/-! C9: determinism under a first-element randomness source. -/

theorem placePot_firstElem {σ : Type} {R : RandSource σ} {cd : ConfDict} {p : PotName}
    (hR : FirstElementSource R) :
    ∀ (ts : List Team) (st : DrawState) (s : σ),
      (placePot R cd p ts st s).1 = (placePot firstRand cd p ts st ()).1 := by
  intro ts
  induction ts with
  | nil => intro st s; rfl
  | cons t ts ih =>
    intro st s
    rw [placePot, placePot]
    by_cases h : get_available_groups_for_team t p st.groupsFormed st.filled cd = []
    · simp only [h, if_true]
    · simp only [h, if_false]
      rw [hR.2]
      exact ih _ _

theorem runPot_firstElem {σ : Type} {R : RandSource σ} {cd : ConfDict} {pd : PotDict}
    {p : PotName} (hR : FirstElementSource R) :
    ∀ (o : Option DrawState) (s : σ),
      (runPot R cd pd p (o, s)).1 = (runPot firstRand cd pd p (o, ())).1 := by
  intro o s
  rcases o with _ | st
  · rfl
  · show (placePot R cd p (R.shuffle s (pd.teams p)).1 st (R.shuffle s (pd.teams p)).2).1 = _
    rw [hR.1]
    exact placePot_firstElem hR _ _ _

theorem processPots_firstElem {σ : Type} {R : RandSource σ} {cd : ConfDict} {pd : PotDict}
    (hR : FirstElementSource R) :
    ∀ (ps : List PotName) (o : Option DrawState) (s : σ),
      (processPots R cd pd ps (o, s)).1 = (processPots firstRand cd pd ps (o, ())).1 := by
  intro ps
  induction ps with
  | nil => intro o s; rfl
  | cons p ps ih =>
    intro o s
    show (processPots R cd pd ps (runPot R cd pd p (o, s))).1 =
      (processPots firstRand cd pd ps (runPot firstRand cd pd p (o, ()))).1
    have h1 : runPot R cd pd p (o, s) =
        ((runPot R cd pd p (o, s)).1, (runPot R cd pd p (o, s)).2) := rfl
    rw [h1, ih, runPot_firstElem hR]

theorem attemptDraw_firstElem {σ : Type} {R : RandSource σ} {cd : ConfDict} {pd : PotDict}
    (hR : FirstElementSource R) (s : σ) :
    (attemptDraw R cd pd s).1 = (attemptDraw firstRand cd pd ()).1 := by
  have hp1 : (pot1Phase R cd pd s).1 = (pot1Phase firstRand cd pd ()).1 := by
    show (placePot R cd .pot1
        (R.shuffle s (placeHosts FIXED_HOSTS pd.pot1 DrawState.init).1).1
        (placeHosts FIXED_HOSTS pd.pot1 DrawState.init).2
        (R.shuffle s (placeHosts FIXED_HOSTS pd.pot1 DrawState.init).1).2).1 = _
    rw [hR.1]
    exact placePot_firstElem hR _ _ _
  show (processPots R cd pd [.pot4, .pot3, .pot2] (pot1Phase R cd pd s)).1 = _
  have h1 : pot1Phase R cd pd s =
      ((pot1Phase R cd pd s).1, (pot1Phase R cd pd s).2) := rfl
  rw [h1, processPots_firstElem hR, hp1]
  rfl

theorem simulateAux_firstElem {σ : Type} {R : RandSource σ} {cd : ConfDict} {pd : PotDict}
    (hR : FirstElementSource R) :
    ∀ (n : Nat) (s : σ),
      (simulateAux R cd pd n s).1 = (simulateAux firstRand cd pd n ()).1 := by
  intro n
  induction n with
  | zero => intro s; rfl
  | succ n ih =>
    intro s
    have ha := @attemptDraw_firstElem σ R cd pd hR s
    rcases h : (attemptDraw firstRand cd pd ()).1 with _ | st
    · rw [h] at ha
      rw [simulateAux_succ_of_none ha, simulateAux_succ_of_none h]
      exact ih _
    · rw [h] at ha
      rw [simulateAux_succ_of_some ha, simulateAux_succ_of_some h]

/-- C9: with randomness sources that always return the first element of any
candidate sequence (identity permutation, first-element choice), any two
invocations of the Single-Draw Engine over identical input data — whatever
their generator states, even over different generator state types — produce
identical group assignments. -/
theorem claim_C9 {σ₁ σ₂ : Type} (R₁ : RandSource σ₁) (R₂ : RandSource σ₂)
    (cd : ConfDict) (pd : PotDict) (n : Nat) (s₁ : σ₁) (s₂ : σ₂)
    (h₁ : FirstElementSource R₁) (h₂ : FirstElementSource R₂) :
    simulate_single_draw R₁ cd pd n s₁ = simulate_single_draw R₂ cd pd n s₂ := by
  show (simulateAux R₁ cd pd n s₁).1 = (simulateAux R₂ cd pd n s₂).1
  rw [simulateAux_firstElem h₁, simulateAux_firstElem h₂]

/-- Witness for C9: two invocations with the first-element stub agree. -/
theorem claim_C9_witness :
    simulate_single_draw firstRand cdW pdW 1 () =
      simulate_single_draw firstRand cdW pdW 1 () :=
  claim_C9 firstRand firstRand cdW pdW 1 () ()
    firstRand_firstElement firstRand_firstElement

/-! Invariant machinery shared by C1, C2, C4 and C8. -/

theorem assign_groupsFormed_self (st : DrawState) (p : PotName) (g : GroupId) (t : Team) :
    (st.assign p g t).groupsFormed g = st.groupsFormed g ++ [t] := by
  simp [DrawState.assign]

theorem assign_groupsFormed_ne (st : DrawState) (p : PotName) (g : GroupId) (t : Team)
    {g' : GroupId} (h : g' ≠ g) :
    (st.assign p g t).groupsFormed g' = st.groupsFormed g' := by
  simp [DrawState.assign, h]

theorem assign_filled_self (st : DrawState) (p : PotName) (g : GroupId) (t : Team) :
    (st.assign p g t).filled p = st.filled p ++ [g] := by
  simp [DrawState.assign]

theorem assign_filled_ne (st : DrawState) (p : PotName) (g : GroupId) (t : Team)
    {q : PotName} (h : q ≠ p) :
    (st.assign p g t).filled q = st.filled q := by
  simp [DrawState.assign, h]

theorem assign_mem_groupsFormed (st : DrawState) (p : PotName) (g : GroupId) (t : Team)
    {g' : GroupId} {t' : Team} (h : t' ∈ st.groupsFormed g') :
    t' ∈ (st.assign p g t).groupsFormed g' := by
  by_cases hg : g' = g
  · subst hg; rw [assign_groupsFormed_self]; exact List.mem_append_left _ h
  · rw [assign_groupsFormed_ne st p g t hg]; exact h

theorem PotsDisjoint.eq_pot {pd : PotDict} (h : PotsDisjoint pd) {t : Team}
    {p q : PotName} (hp : t ∈ pd.teams p) (hq : t ∈ pd.teams q) : p = q := by
  obtain ⟨h1, h2, h3⟩ := h
  cases p <;> cases q <;> simp only [PotDict.teams] at hp hq <;>
    first
      | rfl
      | exact ((h1 t hp).1 hq).elim
      | exact ((h1 t hp).2.1 hq).elim
      | exact ((h1 t hp).2.2 hq).elim
      | exact ((h1 t hq).1 hp).elim
      | exact ((h1 t hq).2.1 hp).elim
      | exact ((h1 t hq).2.2 hp).elim
      | exact ((h2 t hp).1 hq).elim
      | exact ((h2 t hp).2 hq).elim
      | exact ((h2 t hq).1 hp).elim
      | exact ((h2 t hq).2 hp).elim
      | exact ((h3 t hp) hq).elim
      | exact ((h3 t hq) hp).elim

/-- Generic preservation through `placePot`: any state predicate closed under
checker-approved placements of teams satisfying `T` into unfilled groups
survives a successful pot placement. -/
theorem placePot_preserve {σ : Type} {R : RandSource σ} {cd : ConfDict} {p : PotName}
    {T : Team → Prop} {P : DrawState → Prop}
    (hchoice : ∀ (s : σ) (l : List GroupId), l ≠ [] → (R.choice s l).1 ∈ l)
    (hstep : ∀ (st : DrawState) (t : Team) (g : GroupId), g ∈ GROUPS → g ∉ st.filled p →
      can_team_go_to_group t g st.groupsFormed cd = true → T t → P st → P (st.assign p g t)) :
    ∀ (ts : List Team) (st : DrawState) (s : σ) (st' : DrawState),
      (placePot R cd p ts st s).1 = some st' → (∀ t ∈ ts, T t) → P st → P st' := by
  intro ts
  induction ts with
  | nil =>
    intro st s st' h hT hP
    simp only [placePot, Option.some.injEq] at h
    rwa [← h]
  | cons t ts ih =>
    intro st s st' h hT hP
    rw [placePot] at h
    by_cases hav : get_available_groups_for_team t p st.groupsFormed st.filled cd = []
    · simp only [hav, if_true] at h
      exact absurd h (by simp)
    · simp only [hav, if_false] at h
      have hg := hchoice s _ hav
      rcases mem_available_iff.mp hg with ⟨hgG, hgF, hgo⟩
      exact ih _ _ _ h (fun u hu => hT u (List.mem_cons_of_mem _ hu))
        (hstep st t _ hgG hgF hgo (hT t (List.mem_cons_self _ _)) hP)

/-- Generic preservation through `placeHosts`: any state predicate closed
under placements into empty, unfilled groups survives the host placements,
provided the mandated target groups are distinct, valid, currently empty
and unfilled. -/
theorem placeHosts_preserve (T : Team → Prop) (P : DrawState → Prop)
    (hstep : ∀ (st : DrawState) (t : Team) (g : GroupId), g ∈ GROUPS →
      g ∉ st.filled .pot1 → st.groupsFormed g = [] → T t → P st →
      P (st.assign .pot1 g t)) :
    ∀ (hosts : List (Team × GroupId)) (rem : List Team) (st : DrawState),
      (hosts.map Prod.snd).Nodup →
      (∀ pr ∈ hosts, pr.2 ∈ GROUPS ∧ pr.2 ∉ st.filled .pot1 ∧ st.groupsFormed pr.2 = []) →
      (∀ t ∈ rem, T t) → P st → P (placeHosts hosts rem st).2 := by
  intro hosts
  induction hosts with
  | nil => intro rem st _ _ _ hP; exact hP
  | cons pr hs ih =>
    rcases pr with ⟨host, g⟩
    intro rem st hnd htargets hT hP
    rw [List.map_cons] at hnd
    obtain ⟨hgnotin, hnd'⟩ := List.nodup_cons.mp hnd
    rw [placeHosts]
    by_cases hmem : host ∈ rem
    · simp only [hmem, if_true]
      rcases htargets ⟨host, g⟩ (List.mem_cons_self _ _) with ⟨hgG, hgF, hgE⟩
      refine ih _ _ hnd' ?_ ?_ (hstep st host g hgG hgF hgE (hT host hmem) hP)
      · intro pr' hpr'
        rcases htargets pr' (List.mem_cons_of_mem _ hpr') with ⟨h1, h2, h3⟩
        have hne : pr'.2 ≠ g := by
          intro hcontra
          have hmm : pr'.2 ∈ hs.map Prod.snd := List.mem_map_of_mem Prod.snd hpr'
          rw [hcontra] at hmm
          exact hgnotin hmm
        refine ⟨h1, ?_, ?_⟩
        · rw [assign_filled_self]
          simp only [List.mem_append, List.mem_singleton]
          rintro (hin | hEq)
          · exact h2 hin
          · exact hne hEq
        · rw [assign_groupsFormed_ne st .pot1 g host hne]
          exact h3
      · intro u hu; exact hT u (List.erase_subset _ _ hu)
    · simp only [hmem, if_false]
      exact ih _ _ hnd'
        (fun pr' hpr' => htargets pr' (List.mem_cons_of_mem _ hpr')) hT hP

/-- A successful attempt decomposes into a successful Pot 1 phase followed by
successful Pot 4, Pot 3 and Pot 2 phases, in that order. -/
theorem attempt_inv {σ : Type} {R : RandSource σ} {cd : ConfDict} {pd : PotDict}
    {s : σ} {st' : DrawState} (h : (attemptDraw R cd pd s).1 = some st') :
    ∃ st1 s0 st2 s1 st3 s2,
      pot1Phase R cd pd s = (some st1, s0) ∧
      runPot R cd pd .pot4 (some st1, s0) = (some st2, s1) ∧
      runPot R cd pd .pot3 (some st2, s1) = (some st3, s2) ∧
      (runPot R cd pd .pot2 (some st3, s2)).1 = some st' := by
  have heq : attemptDraw R cd pd s =
      runPot R cd pd .pot2 (runPot R cd pd .pot3
        (runPot R cd pd .pot4 (pot1Phase R cd pd s))) := rfl
  rw [heq] at h
  rcases h0 : pot1Phase R cd pd s with ⟨o0, s0⟩
  rw [h0] at h
  rcases o0 with _ | st1
  · rw [show runPot R cd pd .pot4 ((none : Option DrawState), s0) = (none, s0) from rfl,
      show runPot R cd pd .pot3 ((none : Option DrawState), s0) = (none, s0) from rfl,
      show runPot R cd pd .pot2 ((none : Option DrawState), s0) = (none, s0) from rfl] at h
    exact absurd h (by simp)
  · rcases h1 : runPot R cd pd .pot4 (some st1, s0) with ⟨o1, s1⟩
    rw [h1] at h
    rcases o1 with _ | st2
    · rw [show runPot R cd pd .pot3 ((none : Option DrawState), s1) = (none, s1) from rfl,
        show runPot R cd pd .pot2 ((none : Option DrawState), s1) = (none, s1) from rfl] at h
      exact absurd h (by simp)
    · rcases h2 : runPot R cd pd .pot3 (some st2, s1) with ⟨o2, s2⟩
      rw [h2] at h
      rcases o2 with _ | st3
      · rw [show runPot R cd pd .pot2 ((none : Option DrawState), s2) = (none, s2) from rfl] at h
        exact absurd h (by simp)
      · exact ⟨st1, s0, st2, s1, st3, s2, rfl, h1, h2, h⟩

theorem runPot_eq_placePot {σ : Type} (R : RandSource σ) (cd : ConfDict) (pd : PotDict)
    (p : PotName) (st : DrawState) (s : σ) :
    runPot R cd pd p (some st, s) =
      placePot R cd p (R.shuffle s (pd.teams p)).1 st (R.shuffle s (pd.teams p)).2 := rfl

theorem pot1Phase_eq_placePot {σ : Type} (R : RandSource σ) (cd : ConfDict) (pd : PotDict)
    (s : σ) :
    pot1Phase R cd pd s =
      placePot R cd .pot1
        (R.shuffle s (placeHosts FIXED_HOSTS pd.pot1 DrawState.init).1).1
        (placeHosts FIXED_HOSTS pd.pot1 DrawState.init).2
        (R.shuffle s (placeHosts FIXED_HOSTS pd.pot1 DrawState.init).1).2 := rfl

theorem placePot_filled_len {σ : Type} {R : RandSource σ} {cd : ConfDict} {p : PotName} :
    ∀ (ts : List Team) (st : DrawState) (s : σ) (st' : DrawState),
      (placePot R cd p ts st s).1 = some st' →
      (st'.filled p).length = (st.filled p).length + ts.length ∧
      ∀ q, q ≠ p → st'.filled q = st.filled q := by
  intro ts
  induction ts with
  | nil =>
    intro st s st' h
    simp only [placePot, Option.some.injEq] at h
    rw [← h]
    exact ⟨rfl, fun q _ => rfl⟩
  | cons t ts ih =>
    intro st s st' h
    rw [placePot] at h
    by_cases hav : get_available_groups_for_team t p st.groupsFormed st.filled cd = []
    · simp only [hav, if_true] at h
      exact absurd h (by simp)
    · simp only [hav, if_false] at h
      rcases ih _ _ _ h with ⟨hlen, hq⟩
      constructor
      · rw [hlen, assign_filled_self]
        simp only [List.length_append, List.length_cons, List.length_nil]
        omega
      · intro q hq'
        rw [hq q hq', assign_filled_ne _ _ _ _ hq']

theorem placeHosts_len :
    ∀ (hosts : List (Team × GroupId)) (rem : List Team) (st : DrawState),
      (((placeHosts hosts rem st).2.filled .pot1).length + (placeHosts hosts rem st).1.length =
        (st.filled .pot1).length + rem.length) ∧
      (∀ q, q ≠ .pot1 → (placeHosts hosts rem st).2.filled q = st.filled q) ∧
      ((placeHosts hosts rem st).1 ⊆ rem) := by
  intro hosts
  induction hosts with
  | nil =>
    intro rem st
    exact ⟨rfl, fun q _ => rfl, fun t ht => ht⟩
  | cons pr hs ih =>
    rcases pr with ⟨host, g⟩
    intro rem st
    rw [placeHosts]
    by_cases hmem : host ∈ rem
    · simp only [hmem, if_true]
      rcases ih (rem.erase host) (st.assign .pot1 g host) with ⟨hlen, hq, hsub⟩
      have hrlen : (rem.erase host).length = rem.length - 1 := List.length_erase_of_mem hmem
      have hrpos : 0 < rem.length := List.length_pos.mpr (List.ne_nil_of_mem hmem)
      refine ⟨?_, ?_, ?_⟩
      · rw [hlen, assign_filled_self, hrlen]
        simp only [List.length_append, List.length_cons, List.length_nil]
        omega
      · intro q hq'
        rw [hq q hq', assign_filled_ne _ _ _ _ hq']
      · exact fun t ht => List.erase_subset _ _ (hsub ht)
    · simp only [hmem, if_false]
      exact ih rem st

theorem placePot_mono {σ : Type} {R : RandSource σ} {cd : ConfDict} {p : PotName} :
    ∀ (ts : List Team) (st : DrawState) (s : σ) (st' : DrawState),
      (placePot R cd p ts st s).1 = some st' →
      ∀ (g : GroupId) (t : Team), t ∈ st.groupsFormed g → t ∈ st'.groupsFormed g := by
  intro ts
  induction ts with
  | nil =>
    intro st s st' h
    simp only [placePot, Option.some.injEq] at h
    rw [← h]; exact fun g t ht => ht
  | cons t ts ih =>
    intro st s st' h
    rw [placePot] at h
    by_cases hav : get_available_groups_for_team t p st.groupsFormed st.filled cd = []
    · simp only [hav, if_true] at h
      exact absurd h (by simp)
    · simp only [hav, if_false] at h
      intro g u hu
      exact ih _ _ _ h g u (assign_mem_groupsFormed st p _ t hu)

theorem placeHosts_mono :
    ∀ (hosts : List (Team × GroupId)) (rem : List Team) (st : DrawState)
      (g : GroupId) (t : Team), t ∈ st.groupsFormed g →
      t ∈ (placeHosts hosts rem st).2.groupsFormed g := by
  intro hosts
  induction hosts with
  | nil => intro rem st g t ht; exact ht
  | cons pr hs ih =>
    rcases pr with ⟨host, hg⟩
    intro rem st g t ht
    rw [placeHosts]
    by_cases hmem : host ∈ rem
    · simp only [hmem, if_true]
      exact ih _ _ g t (assign_mem_groupsFormed st .pot1 hg host ht)
    · simp only [hmem, if_false]
      exact ih _ _ g t ht

theorem placePot_places {σ : Type} {R : RandSource σ} {cd : ConfDict} {p : PotName}
    (hchoice : ∀ (s : σ) (l : List GroupId), l ≠ [] → (R.choice s l).1 ∈ l) :
    ∀ (ts : List Team) (st : DrawState) (s : σ) (st' : DrawState),
      (placePot R cd p ts st s).1 = some st' →
      ∀ t ∈ ts, ∃ g, g ∈ GROUPS ∧ t ∈ st'.groupsFormed g := by
  intro ts
  induction ts with
  | nil => intro st s st' _ t ht; exact absurd ht (by simp)
  | cons t ts ih =>
    intro st s st' h u hu
    rw [placePot] at h
    by_cases hav : get_available_groups_for_team t p st.groupsFormed st.filled cd = []
    · simp only [hav, if_true] at h
      exact absurd h (by simp)
    · simp only [hav, if_false] at h
      rcases List.mem_cons.mp hu with rfl | htail
      · have hg := hchoice s _ hav
        rcases mem_available_iff.mp hg with ⟨hgG, _, _⟩
        refine ⟨_, hgG, placePot_mono _ _ _ _ h _ u ?_⟩
        rw [assign_groupsFormed_self]
        exact List.mem_append_right _ (List.mem_singleton_self u)
      · exact ih _ _ _ h u htail

theorem placeHosts_covers :
    ∀ (hosts : List (Team × GroupId)) (rem : List Team) (st : DrawState),
      (∀ pr ∈ hosts, pr.2 ∈ GROUPS) →
      ∀ t ∈ rem, t ∈ (placeHosts hosts rem st).1 ∨
        ∃ g, g ∈ GROUPS ∧ t ∈ (placeHosts hosts rem st).2.groupsFormed g := by
  intro hosts
  induction hosts with
  | nil => intro rem st _ t ht; exact Or.inl ht
  | cons pr hs ih =>
    rcases pr with ⟨host, hg⟩
    intro rem st htargets t ht
    rw [placeHosts]
    by_cases hmem : host ∈ rem
    · simp only [hmem, if_true]
      by_cases hth : t = host
      · subst hth
        refine Or.inr ⟨hg, htargets ⟨t, hg⟩ (List.mem_cons_self _ _), ?_⟩
        refine placeHosts_mono hs _ _ hg t ?_
        rw [assign_groupsFormed_self]
        exact List.mem_append_right _ (List.mem_singleton_self t)
      · exact ih _ _ (fun pr' hpr' => htargets pr' (List.mem_cons_of_mem _ hpr')) t
          ((List.mem_erase_of_ne hth).mpr ht)
    · simp only [hmem, if_false]
      exact ih _ _ (fun pr' hpr' => htargets pr' (List.mem_cons_of_mem _ hpr')) t ht

theorem confCap_pos (c : Conf) : 1 ≤ confCap c := by
  rw [confCap]
  by_cases h : c = "UEFA" <;> simp [h, MAX_UEFA_PER_GROUP, MAX_OTHER_CONF_PER_GROUP]

theorem confTeamCount_le_tally (cd : ConfDict) (ts : List Team) (c : Conf) :
    confTeamCount cd ts c ≤ confTally cd ts c := by
  induction ts with
  | nil => simp [confTeamCount, confTally]
  | cons t ts ih =>
    simp only [confTeamCount, confTally, List.countP_cons, List.flatMap_cons,
      List.count_append] at ih ⊢
    by_cases h : c ∈ cd t
    · have hpos : 0 < (cd t).count c := List.count_pos_iff.mpr h
      simp only [h, decide_True, if_true]
      omega
    · simp [h]
      omega

theorem confTeamCount_append_single (cd : ConfDict) (ts : List Team) (t : Team) (c : Conf) :
    confTeamCount cd (ts ++ [t]) c =
      confTeamCount cd ts c + (if c ∈ cd t then 1 else 0) := by
  by_cases h : c ∈ cd t <;>
    simp [confTeamCount, List.countP_append, List.countP_cons, h]

theorem confOK_init (cd : ConfDict) : ConfOK cd DrawState.init := by
  intro g c
  simp [DrawState.init, confTeamCount]

theorem confOK_step_checker {cd : ConfDict} {st : DrawState} {t : Team} {g : GroupId}
    (p : PotName) (hok : can_team_go_to_group t g st.groupsFormed cd = true)
    (hP : ConfOK cd st) : ConfOK cd (st.assign p g t) := by
  intro g' c
  by_cases hg : g' = g
  · subst hg
    rw [assign_groupsFormed_self, confTeamCount_append_single]
    by_cases hc : c ∈ cd t
    · simp only [hc, if_true]
      have h1 := confTeamCount_le_tally cd (st.groupsFormed g') c
      have h2 : confTally cd (st.groupsFormed g') c < confCap c := by
        rcases can_go_iff.mp hok with hemp | hall
        · rw [hemp] at hc
          simp at hc
        · have h3 := hall c hc
          by_cases hu : c = "UEFA"
          · rw [if_pos hu] at h3
            rw [confCap, if_pos hu]
            exact h3
          · rw [if_neg hu] at h3
            rw [confCap, if_neg hu]
            exact h3
      omega
    · simp only [hc, if_false]
      rw [Nat.add_zero]
      exact hP g' c
  · rw [assign_groupsFormed_ne _ _ _ _ hg]
    exact hP g' c

theorem confOK_step_empty {cd : ConfDict} {st : DrawState} {t : Team} {g : GroupId}
    (p : PotName) (hemp : st.groupsFormed g = []) (hP : ConfOK cd st) :
    ConfOK cd (st.assign p g t) := by
  intro g' c
  by_cases hg : g' = g
  · subst hg
    rw [assign_groupsFormed_self, hemp, confTeamCount_append_single]
    have h1 : confTeamCount cd [] c = 0 := by simp [confTeamCount]
    have h2 := confCap_pos c
    by_cases hc : c ∈ cd t <;> simp only [hc, if_true, if_false] <;> omega
  · rw [assign_groupsFormed_ne _ _ _ _ hg]
    exact hP g' c

theorem hosts_targets_init :
    ∀ pr ∈ FIXED_HOSTS, pr.2 ∈ GROUPS ∧ pr.2 ∉ DrawState.init.filled .pot1 ∧
      DrawState.init.groupsFormed pr.2 = [] := by
  decide

theorem hosts_targets_nodup : (FIXED_HOSTS.map Prod.snd).Nodup := by
  decide

theorem attempt_confOK {σ : Type} {R : RandSource σ} {cd : ConfDict} {pd : PotDict}
    {s : σ} {st' : DrawState}
    (hchoice : ∀ (s : σ) (l : List GroupId), l ≠ [] → (R.choice s l).1 ∈ l)
    (h : (attemptDraw R cd pd s).1 = some st') : ConfOK cd st' := by
  rcases attempt_inv h with ⟨st1, s0, st2, s1, st3, s2, h0, h1, h2, h3⟩
  have hhosts : ConfOK cd (placeHosts FIXED_HOSTS pd.pot1 DrawState.init).2 :=
    placeHosts_preserve (fun _ => True) (ConfOK cd)
      (fun st t g _ _ hgE _ hP => confOK_step_empty .pot1 hgE hP)
      FIXED_HOSTS pd.pot1 DrawState.init hosts_targets_nodup hosts_targets_init
      (fun _ _ => trivial) (confOK_init cd)
  rw [pot1Phase_eq_placePot] at h0
  have h0' : (placePot R cd .pot1
      (R.shuffle s (placeHosts FIXED_HOSTS pd.pot1 DrawState.init).1).1
      (placeHosts FIXED_HOSTS pd.pot1 DrawState.init).2
      (R.shuffle s (placeHosts FIXED_HOSTS pd.pot1 DrawState.init).1).2).1 = some st1 := by
    rw [h0]
  have hst1 : ConfOK cd st1 :=
    placePot_preserve hchoice
      (fun st t g _ _ hgo _ hP => confOK_step_checker .pot1 hgo hP)
      _ _ _ _ h0' (fun _ _ => trivial) hhosts
  rw [runPot_eq_placePot] at h1
  have h1' : (placePot R cd .pot4 (R.shuffle s0 (pd.teams .pot4)).1 st1
      (R.shuffle s0 (pd.teams .pot4)).2).1 = some st2 := by rw [h1]
  have hst2 : ConfOK cd st2 :=
    placePot_preserve hchoice
      (fun st t g _ _ hgo _ hP => confOK_step_checker .pot4 hgo hP)
      _ _ _ _ h1' (fun _ _ => trivial) hst1
  rw [runPot_eq_placePot] at h2
  have h2' : (placePot R cd .pot3 (R.shuffle s1 (pd.teams .pot3)).1 st2
      (R.shuffle s1 (pd.teams .pot3)).2).1 = some st3 := by rw [h2]
  have hst3 : ConfOK cd st3 :=
    placePot_preserve hchoice
      (fun st t g _ _ hgo _ hP => confOK_step_checker .pot3 hgo hP)
      _ _ _ _ h2' (fun _ _ => trivial) hst2
  rw [runPot_eq_placePot] at h3
  exact placePot_preserve hchoice
    (fun st t g _ _ hgo _ hP => confOK_step_checker .pot2 hgo hP)
    _ _ _ _ h3 (fun _ _ => trivial) hst3

/-- C2: in every assignment returned by a successful `simulate_single_draw`
— fixed-host groups included — every group holds at most 2 teams carrying
the `"UEFA"` label and at most 1 team carrying any other single
confederation label, a playoff team counting under each label it carries.
The only assumption on the randomness source is the defining property of
`random.choice`: it returns an element of its (non-empty) argument. -/
theorem claim_C2 {σ : Type} (R : RandSource σ) (cd : ConfDict) (pd : PotDict)
    (n : Nat) (s : σ) (gf : GroupId → List Team)
    (hchoice : ∀ (s : σ) (l : List GroupId), l ≠ [] → (R.choice s l).1 ∈ l)
    (hsucc : simulate_single_draw R cd pd n s = some gf) :
    ∀ (g : GroupId) (c : Conf),
      confTeamCount cd (gf g) c ≤ (if c = "UEFA" then 2 else 1) := by
  rcases (simulateAux_some_iff R cd pd n s gf).mp hsucc with ⟨k, _, _, st, hst, rfl⟩
  have hok := attempt_confOK hchoice hst
  intro g c
  have h := hok g c
  rw [confCap] at h
  by_cases hu : c = "UEFA"
  · rw [if_pos hu] at h ⊢
    exact h
  · rw [if_neg hu] at h ⊢
    exact h

theorem potCounts_init (pd : PotDict) : PotCounts pd DrawState.init := by
  refine ⟨fun p => List.nodup_nil, fun p g hg => absurd hg (by simp [DrawState.init]), ?_, ?_⟩
  · intro p g; simp [DrawState.init]
  · intro g t ht; exact absurd ht (by simp [DrawState.init])

theorem potCounts_step {pd : PotDict} {st : DrawState} {t : Team} {g : GroupId}
    {p : PotName} (hdisj : PotsDisjoint pd)
    (hg : g ∈ GROUPS) (hgf : g ∉ st.filled p) (ht : t ∈ pd.teams p)
    (hP : PotCounts pd st) : PotCounts pd (st.assign p g t) := by
  obtain ⟨hnd, hsub, hcnt, hin⟩ := hP
  refine ⟨?_, ?_, ?_, ?_⟩
  · intro q
    by_cases hq : q = p
    · subst hq
      rw [assign_filled_self]
      refine List.Nodup.append (hnd q) (List.nodup_singleton g) ?_
      intro a ha hb
      rw [List.mem_singleton] at hb
      subst hb
      exact hgf ha
    · rw [assign_filled_ne _ _ _ _ hq]
      exact hnd q
  · intro q g' hg'
    by_cases hq : q = p
    · subst hq
      rw [assign_filled_self] at hg'
      rcases List.mem_append.mp hg' with hmem | hmem
      · exact hsub q g' hmem
      · rw [List.mem_singleton] at hmem
        subst hmem
        exact hg
    · rw [assign_filled_ne _ _ _ _ hq] at hg'
      exact hsub q g' hg'
  · intro q g'
    by_cases hgq : g' = g
    · subst hgq
      rw [assign_groupsFormed_self, List.countP_append]
      by_cases hq : q = p
      · subst hq
        rw [assign_filled_self, List.count_append]
        have h1 : List.countP (fun u => decide (u ∈ pd.teams q)) [t] = 1 := by simp [ht]
        have h2 : List.count g' [g'] = 1 := by simp
        rw [hcnt q g', h1, h2]
      · rw [assign_filled_ne _ _ _ _ hq]
        have htq : t ∉ pd.teams q := by
          intro hc
          exact hq (hdisj.eq_pot hc ht)
        have h1 : List.countP (fun u => decide (u ∈ pd.teams q)) [t] = 0 := by simp [htq]
        rw [h1, Nat.add_zero]
        exact hcnt q g'
    · rw [assign_groupsFormed_ne _ _ _ _ hgq]
      by_cases hq : q = p
      · subst hq
        rw [assign_filled_self, List.count_append]
        have h2 : List.count g' [g] = 0 := by
          rw [List.count_singleton']
          exact if_neg (fun hh => hgq hh.symm)
        rw [h2, Nat.add_zero]
        exact hcnt q g'
      · rw [assign_filled_ne _ _ _ _ hq]
        exact hcnt q g'
  · intro g' t' ht'
    by_cases hgq : g' = g
    · subst hgq
      rw [assign_groupsFormed_self] at ht'
      rcases List.mem_append.mp ht' with hmem | hmem
      · exact hin g' t' hmem
      · rw [List.mem_singleton] at hmem
        subst hmem
        cases p with
        | pot1 => exact Or.inl ht
        | pot2 => exact Or.inr (Or.inl ht)
        | pot3 => exact Or.inr (Or.inr (Or.inl ht))
        | pot4 => exact Or.inr (Or.inr (Or.inr ht))
    · rw [assign_groupsFormed_ne _ _ _ _ hgq] at ht'
      exact hin g' t' ht'

theorem attempt_counts {σ : Type} {R : RandSource σ} {cd : ConfDict} {pd : PotDict}
    {s : σ} {st' : DrawState}
    (hshuf : ∀ (s : σ) (l : List Team), ((R.shuffle s l).1).Perm l)
    (hchoice : ∀ (s : σ) (l : List GroupId), l ≠ [] → (R.choice s l).1 ∈ l)
    (hdisj : PotsDisjoint pd)
    (h : (attemptDraw R cd pd s).1 = some st') :
    PotCounts pd st' ∧ ∀ p, (st'.filled p).length = (pd.teams p).length := by
  rcases attempt_inv h with ⟨st1, s0, st2, s1, st3, s2, h0, h1, h2, h3⟩
  rcases placeHosts_len FIXED_HOSTS pd.pot1 DrawState.init with ⟨hHlen, hHq, hHsub⟩
  have hhosts : PotCounts pd (placeHosts FIXED_HOSTS pd.pot1 DrawState.init).2 :=
    placeHosts_preserve (fun t => t ∈ pd.pot1) (PotCounts pd)
      (fun st t g hgG hgF _ hT hP => potCounts_step hdisj hgG hgF hT hP)
      FIXED_HOSTS pd.pot1 DrawState.init hosts_targets_nodup hosts_targets_init
      (fun _ htt => htt) (potCounts_init pd)
  rw [pot1Phase_eq_placePot] at h0
  have h0' : (placePot R cd .pot1
      (R.shuffle s (placeHosts FIXED_HOSTS pd.pot1 DrawState.init).1).1
      (placeHosts FIXED_HOSTS pd.pot1 DrawState.init).2
      (R.shuffle s (placeHosts FIXED_HOSTS pd.pot1 DrawState.init).1).2).1 = some st1 := by
    rw [h0]
  have hst1 : PotCounts pd st1 :=
    placePot_preserve hchoice
      (fun st t g hgG hgF _ hT hP => potCounts_step hdisj hgG hgF hT hP)
      _ _ _ _ h0'
      (fun t htt => hHsub ((hshuf s _).mem_iff.mp htt))
      hhosts
  rcases placePot_filled_len _ _ _ _ h0' with ⟨hl1, hq1⟩
  rw [runPot_eq_placePot] at h1
  have h1' : (placePot R cd .pot4 (R.shuffle s0 (pd.teams .pot4)).1 st1
      (R.shuffle s0 (pd.teams .pot4)).2).1 = some st2 := by rw [h1]
  have hst2 : PotCounts pd st2 :=
    placePot_preserve hchoice
      (fun st t g hgG hgF _ hT hP => potCounts_step hdisj hgG hgF hT hP)
      _ _ _ _ h1'
      (fun t htt => (hshuf s0 _).mem_iff.mp htt)
      hst1
  rcases placePot_filled_len _ _ _ _ h1' with ⟨hl2, hq2⟩
  rw [runPot_eq_placePot] at h2
  have h2' : (placePot R cd .pot3 (R.shuffle s1 (pd.teams .pot3)).1 st2
      (R.shuffle s1 (pd.teams .pot3)).2).1 = some st3 := by rw [h2]
  have hst3 : PotCounts pd st3 :=
    placePot_preserve hchoice
      (fun st t g hgG hgF _ hT hP => potCounts_step hdisj hgG hgF hT hP)
      _ _ _ _ h2'
      (fun t htt => (hshuf s1 _).mem_iff.mp htt)
      hst2
  rcases placePot_filled_len _ _ _ _ h2' with ⟨hl3, hq3⟩
  rw [runPot_eq_placePot] at h3
  have hst4 : PotCounts pd st' :=
    placePot_preserve hchoice
      (fun st t g hgG hgF _ hT hP => potCounts_step hdisj hgG hgF hT hP)
      _ _ _ _ h3
      (fun t htt => (hshuf s2 _).mem_iff.mp htt)
      hst3
  rcases placePot_filled_len _ _ _ _ h3 with ⟨hl4, hq4⟩
  refine ⟨hst4, ?_⟩
  have hsh0 : ((R.shuffle s (placeHosts FIXED_HOSTS pd.pot1 DrawState.init).1).1).length =
      ((placeHosts FIXED_HOSTS pd.pot1 DrawState.init).1).length :=
    (hshuf s _).length_eq
  have hsh4 : ((R.shuffle s0 (pd.teams .pot4)).1).length = (pd.teams .pot4).length :=
    (hshuf s0 _).length_eq
  have hsh3 : ((R.shuffle s1 (pd.teams .pot3)).1).length = (pd.teams .pot3).length :=
    (hshuf s1 _).length_eq
  have hsh2 : ((R.shuffle s2 (pd.teams .pot2)).1).length = (pd.teams .pot2).length :=
    (hshuf s2 _).length_eq
  have hinit : ∀ q, (DrawState.init.filled q).length = 0 := fun q => rfl
  intro p
  cases p with
  | pot1 =>
    have e1 : (st'.filled .pot1) = st3.filled .pot1 := hq4 .pot1 (by decide)
    have e2 : (st3.filled .pot1) = st2.filled .pot1 := hq3 .pot1 (by decide)
    have e3 : (st2.filled .pot1) = st1.filled .pot1 := hq2 .pot1 (by decide)
    rw [e1, e2, e3, hl1, hsh0]
    have := hinit .pot1
    show _ = pd.pot1.length
    omega
  | pot2 =>
    rw [hl4, hsh2]
    have e2 : (st3.filled .pot2) = st2.filled .pot2 := hq3 .pot2 (by decide)
    have e3 : (st2.filled .pot2) = st1.filled .pot2 := hq2 .pot2 (by decide)
    have e4 : (st1.filled .pot2) = (placeHosts FIXED_HOSTS pd.pot1 DrawState.init).2.filled .pot2 :=
      hq1 .pot2 (by decide)
    have e5 := hHq .pot2 (by decide)
    rw [e2, e3, e4, e5]
    simp [DrawState.init]
  | pot3 =>
    have e1 : (st'.filled .pot3) = st3.filled .pot3 := hq4 .pot3 (by decide)
    rw [e1, hl3, hsh3]
    have e3 : (st2.filled .pot3) = st1.filled .pot3 := hq2 .pot3 (by decide)
    have e4 : (st1.filled .pot3) = (placeHosts FIXED_HOSTS pd.pot1 DrawState.init).2.filled .pot3 :=
      hq1 .pot3 (by decide)
    have e5 := hHq .pot3 (by decide)
    rw [e3, e4, e5]
    simp [DrawState.init]
  | pot4 =>
    have e1 : (st'.filled .pot4) = st3.filled .pot4 := hq4 .pot4 (by decide)
    have e2 : (st3.filled .pot4) = st2.filled .pot4 := hq3 .pot4 (by decide)
    rw [e1, e2, hl2, hsh4]
    have e4 : (st1.filled .pot4) = (placeHosts FIXED_HOSTS pd.pot1 DrawState.init).2.filled .pot4 :=
      hq1 .pot4 (by decide)
    have e5 := hHq .pot4 (by decide)
    rw [e4, e5]
    simp [DrawState.init]

theorem count_one_of_full {l : List GroupId} (hnd : l.Nodup)
    (hsub : ∀ g ∈ l, g ∈ GROUPS) (hlen : l.length = 12) :
    ∀ g ∈ GROUPS, l.count g = 1 := by
  have hs : l.Subperm GROUPS := List.subperm_of_subset hnd (fun x hx => hsub x hx)
  have hperm : l.Perm GROUPS := hs.perm_of_length_le (by rw [hlen]; rfl)
  intro g hg
  rw [hperm.count_eq]
  exact List.count_eq_one_of_mem GROUPS_nodup hg

theorem length_eq_countP_sum {pd : PotDict} (hdisj : PotsDisjoint pd) :
    ∀ ts : List Team,
      (∀ t ∈ ts, t ∈ pd.pot1 ∨ t ∈ pd.pot2 ∨ t ∈ pd.pot3 ∨ t ∈ pd.pot4) →
      ts.length = ts.countP (fun t => decide (t ∈ pd.pot1)) +
        ts.countP (fun t => decide (t ∈ pd.pot2)) +
        ts.countP (fun t => decide (t ∈ pd.pot3)) +
        ts.countP (fun t => decide (t ∈ pd.pot4)) := by
  intro ts
  induction ts with
  | nil => intro _; simp
  | cons t ts ih =>
    intro hmem
    have hts := ih (fun u hu => hmem u (List.mem_cons_of_mem _ hu))
    simp only [List.countP_cons, List.length_cons]
    rcases hmem t (List.mem_cons_self _ _) with h1 | h2 | h3 | h4
    · have n2 := (hdisj.1 t h1).1
      have n3 := (hdisj.1 t h1).2.1
      have n4 := (hdisj.1 t h1).2.2
      simp [h1, n2, n3, n4]
      omega
    · have n1 : t ∉ pd.pot1 := fun hc => (hdisj.1 t hc).1 h2
      have n3 := (hdisj.2.1 t h2).1
      have n4 := (hdisj.2.1 t h2).2
      simp [h2, n1, n3, n4]
      omega
    · have n1 : t ∉ pd.pot1 := fun hc => (hdisj.1 t hc).2.1 h3
      have n2 : t ∉ pd.pot2 := fun hc => (hdisj.2.1 t hc).1 h3
      have n4 := hdisj.2.2 t h3
      simp [h3, n1, n2, n4]
      omega
    · have n1 : t ∉ pd.pot1 := fun hc => (hdisj.1 t hc).2.2 h4
      have n2 : t ∉ pd.pot2 := fun hc => (hdisj.2.1 t hc).2 h4
      have n3 : t ∉ pd.pot3 := fun hc => hdisj.2.2 t hc h4
      simp [h4, n1, n2, n3]
      omega

/-- C1: for every successful draw over pairwise-disjoint pots of 12 teams
each, every one of the 12 groups holds exactly 4 teams, exactly one drawn
from each of the four pots.  The randomness source is only assumed to
behave as Python's `random` module does: `shuffle` permutes its list and
`choice` picks an element of its non-empty list. -/
theorem claim_C1 {σ : Type} (R : RandSource σ) (cd : ConfDict) (pd : PotDict)
    (n : Nat) (s : σ) (gf : GroupId → List Team)
    (hshuf : ∀ (s : σ) (l : List Team), ((R.shuffle s l).1).Perm l)
    (hchoice : ∀ (s : σ) (l : List GroupId), l ≠ [] → (R.choice s l).1 ∈ l)
    (hdisj : PotsDisjoint pd)
    (hlen1 : pd.pot1.length = 12) (hlen2 : pd.pot2.length = 12)
    (hlen3 : pd.pot3.length = 12) (hlen4 : pd.pot4.length = 12)
    (hsucc : simulate_single_draw R cd pd n s = some gf) :
    ∀ g ∈ GROUPS, (gf g).length = 4 ∧
      (gf g).countP (fun t => decide (t ∈ pd.pot1)) = 1 ∧
      (gf g).countP (fun t => decide (t ∈ pd.pot2)) = 1 ∧
      (gf g).countP (fun t => decide (t ∈ pd.pot3)) = 1 ∧
      (gf g).countP (fun t => decide (t ∈ pd.pot4)) = 1 := by
  rcases (simulateAux_some_iff R cd pd n s gf).mp hsucc with ⟨k, _, _, st, hst, rfl⟩
  rcases attempt_counts hshuf hchoice hdisj hst with ⟨⟨hnd, hsub, hcnt, hin⟩, hflen⟩
  intro g hg
  have hone : ∀ p : PotName, (st.filled p).count g = 1 := by
    intro p
    refine count_one_of_full (hnd p) (hsub p) ?_ g hg
    rw [hflen p]
    cases p with
    | pot1 => exact hlen1
    | pot2 => exact hlen2
    | pot3 => exact hlen3
    | pot4 => exact hlen4
  have hc1 : (st.groupsFormed g).countP (fun t => decide (t ∈ pd.pot1)) = 1 := by
    have := hcnt .pot1 g
    rw [hone .pot1] at this
    exact this
  have hc2 : (st.groupsFormed g).countP (fun t => decide (t ∈ pd.pot2)) = 1 := by
    have := hcnt .pot2 g
    rw [hone .pot2] at this
    exact this
  have hc3 : (st.groupsFormed g).countP (fun t => decide (t ∈ pd.pot3)) = 1 := by
    have := hcnt .pot3 g
    rw [hone .pot3] at this
    exact this
  have hc4 : (st.groupsFormed g).countP (fun t => decide (t ∈ pd.pot4)) = 1 := by
    have := hcnt .pot4 g
    rw [hone .pot4] at this
    exact this
  refine ⟨?_, hc1, hc2, hc3, hc4⟩
  rw [length_eq_countP_sum hdisj (st.groupsFormed g) (hin g), hc1, hc2, hc3, hc4]

/-! C4: fixed hosts. -/

theorem attempt_mono {σ : Type} {R : RandSource σ} {cd : ConfDict} {pd : PotDict}
    {s : σ} {st' : DrawState} (h : (attemptDraw R cd pd s).1 = some st') :
    ∀ (g : GroupId) (t : Team),
      t ∈ (placeHosts FIXED_HOSTS pd.pot1 DrawState.init).2.groupsFormed g →
      t ∈ st'.groupsFormed g := by
  rcases attempt_inv h with ⟨st1, s0, st2, s1, st3, s2, h0, h1, h2, h3⟩
  rw [pot1Phase_eq_placePot] at h0
  have h0' : (placePot R cd .pot1
      (R.shuffle s (placeHosts FIXED_HOSTS pd.pot1 DrawState.init).1).1
      (placeHosts FIXED_HOSTS pd.pot1 DrawState.init).2
      (R.shuffle s (placeHosts FIXED_HOSTS pd.pot1 DrawState.init).1).2).1 = some st1 := by
    rw [h0]
  rw [runPot_eq_placePot] at h1 h2 h3
  have h1' : (placePot R cd .pot4 (R.shuffle s0 (pd.teams .pot4)).1 st1
      (R.shuffle s0 (pd.teams .pot4)).2).1 = some st2 := by rw [h1]
  have h2' : (placePot R cd .pot3 (R.shuffle s1 (pd.teams .pot3)).1 st2
      (R.shuffle s1 (pd.teams .pot3)).2).1 = some st3 := by rw [h2]
  intro g t ht
  exact placePot_mono _ _ _ _ h3 g t
    (placePot_mono _ _ _ _ h2' g t
      (placePot_mono _ _ _ _ h1' g t
        (placePot_mono _ _ _ _ h0' g t ht)))

theorem hosts_placed {pd : PotDict}
    (hM : "Mexico" ∈ pd.pot1) (hC : "Canada" ∈ pd.pot1)
    (hU : "United States" ∈ pd.pot1) :
    "Mexico" ∈ (placeHosts FIXED_HOSTS pd.pot1 DrawState.init).2.groupsFormed "A" ∧
    "Canada" ∈ (placeHosts FIXED_HOSTS pd.pot1 DrawState.init).2.groupsFormed "B" ∧
    "United States" ∈ (placeHosts FIXED_HOSTS pd.pot1 DrawState.init).2.groupsFormed "D" := by
  have hC' : "Canada" ∈ pd.pot1.erase "Mexico" :=
    (List.mem_erase_of_ne (by decide)).mpr hC
  have hU' : "United States" ∈ (pd.pot1.erase "Mexico").erase "Canada" :=
    (List.mem_erase_of_ne (by decide)).mpr ((List.mem_erase_of_ne (by decide)).mpr hU)
  have e : placeHosts FIXED_HOSTS pd.pot1 DrawState.init =
      (((pd.pot1.erase "Mexico").erase "Canada").erase "United States",
        ((DrawState.init.assign .pot1 "A" "Mexico").assign .pot1 "B" "Canada").assign
          .pot1 "D" "United States") := by
    show placeHosts [("Mexico", "A"), ("Canada", "B"), ("United States", "D")]
        pd.pot1 DrawState.init = _
    rw [placeHosts, if_pos hM, placeHosts, if_pos hC', placeHosts, if_pos hU', placeHosts]
  rw [e]
  refine ⟨?_, ?_, ?_⟩
  · rw [assign_groupsFormed_ne _ _ _ _ (by decide),
      assign_groupsFormed_ne _ _ _ _ (by decide), assign_groupsFormed_self]
    simp [DrawState.init]
  · rw [assign_groupsFormed_ne _ _ _ _ (by decide), assign_groupsFormed_self,
      assign_groupsFormed_ne _ _ _ _ (by decide)]
    simp [DrawState.init]
  · rw [assign_groupsFormed_self, assign_groupsFormed_ne _ _ _ _ (by decide),
      assign_groupsFormed_ne _ _ _ _ (by decide)]
    simp [DrawState.init]

/-- C4: when the three fixed hosts are present in the seeded pot (validated
input), the host-placement stage — which runs before any shuffle or random
choice, consults no randomness source, and always succeeds (`placeHosts` is
a total function into a plain pair) — puts each host into its mandated
group, and in every successful draw each host still occupies its mandated
group. -/
theorem claim_C4 {σ : Type} (R : RandSource σ) (cd : ConfDict) (pd : PotDict)
    (n : Nat) (s : σ) (gf : GroupId → List Team)
    (hM : "Mexico" ∈ pd.pot1) (hC : "Canada" ∈ pd.pot1)
    (hU : "United States" ∈ pd.pot1) :
    ("Mexico" ∈ (placeHosts FIXED_HOSTS pd.pot1 DrawState.init).2.groupsFormed "A" ∧
     "Canada" ∈ (placeHosts FIXED_HOSTS pd.pot1 DrawState.init).2.groupsFormed "B" ∧
     "United States" ∈ (placeHosts FIXED_HOSTS pd.pot1 DrawState.init).2.groupsFormed "D") ∧
    (simulate_single_draw R cd pd n s = some gf →
      "Mexico" ∈ gf "A" ∧ "Canada" ∈ gf "B" ∧ "United States" ∈ gf "D") := by
  have hp := hosts_placed hM hC hU
  refine ⟨hp, ?_⟩
  intro hsucc
  rcases (simulateAux_some_iff R cd pd n s gf).mp hsucc with ⟨k, _, _, st, hst, rfl⟩
  exact ⟨attempt_mono hst "A" "Mexico" hp.1,
    attempt_mono hst "B" "Canada" hp.2.1,
    attempt_mono hst "D" "United States" hp.2.2⟩

theorem sumCounts_incKey : ∀ (tab : List (CombKey × Nat)) (k : CombKey),
    sumCounts (incKey tab k) = sumCounts tab + 1 := by
  intro tab
  induction tab with
  | nil => intro k; simp [incKey, sumCounts]
  | cons pr rest ih =>
    rcases pr with ⟨k', m⟩
    intro k
    by_cases h : k' = k
    · simp [incKey, h, sumCounts]
      omega
    · simp only [incKey, h, if_false, sumCounts, List.map_cons, List.sum_cons]
      have := ih k
      simp only [sumCounts] at this
      omega

theorem attempt_covers {σ : Type} {R : RandSource σ} {cd : ConfDict} {pd : PotDict}
    {s : σ} {st' : DrawState}
    (hshuf : ∀ (s : σ) (l : List Team), ((R.shuffle s l).1).Perm l)
    (hchoice : ∀ (s : σ) (l : List GroupId), l ≠ [] → (R.choice s l).1 ∈ l)
    (h : (attemptDraw R cd pd s).1 = some st') :
    ∀ t : Team, (t ∈ pd.pot1 ∨ t ∈ pd.pot2 ∨ t ∈ pd.pot3 ∨ t ∈ pd.pot4) →
      ∃ g, g ∈ GROUPS ∧ t ∈ st'.groupsFormed g := by
  rcases attempt_inv h with ⟨st1, s0, st2, s1, st3, s2, h0, h1, h2, h3⟩
  rw [pot1Phase_eq_placePot] at h0
  have h0' : (placePot R cd .pot1
      (R.shuffle s (placeHosts FIXED_HOSTS pd.pot1 DrawState.init).1).1
      (placeHosts FIXED_HOSTS pd.pot1 DrawState.init).2
      (R.shuffle s (placeHosts FIXED_HOSTS pd.pot1 DrawState.init).1).2).1 = some st1 := by
    rw [h0]
  rw [runPot_eq_placePot] at h1 h2 h3
  have h1' : (placePot R cd .pot4 (R.shuffle s0 (pd.teams .pot4)).1 st1
      (R.shuffle s0 (pd.teams .pot4)).2).1 = some st2 := by rw [h1]
  have h2' : (placePot R cd .pot3 (R.shuffle s1 (pd.teams .pot3)).1 st2
      (R.shuffle s1 (pd.teams .pot3)).2).1 = some st3 := by rw [h2]
  have mono12 : ∀ (g : GroupId) (t : Team), t ∈ st1.groupsFormed g → t ∈ st'.groupsFormed g :=
    fun g t ht => placePot_mono _ _ _ _ h3 g t
      (placePot_mono _ _ _ _ h2' g t (placePot_mono _ _ _ _ h1' g t ht))
  intro t hmem
  rcases hmem with h1m | h2m | h3m | h4m
  · rcases placeHosts_covers FIXED_HOSTS pd.pot1 DrawState.init
        (fun pr hpr => (hosts_targets_init pr hpr).1) t h1m with hrem | ⟨g, hgG, hgmem⟩
    · have hsh : t ∈ (R.shuffle s (placeHosts FIXED_HOSTS pd.pot1 DrawState.init).1).1 :=
        (hshuf s _).mem_iff.mpr hrem
      rcases placePot_places hchoice _ _ _ _ h0' t hsh with ⟨g, hgG, hgmem⟩
      exact ⟨g, hgG, mono12 g t hgmem⟩
    · exact ⟨g, hgG, mono12 g t
        (placePot_mono _ _ _ _ h0' g t
          (by
            rcases placeHosts_len FIXED_HOSTS pd.pot1 DrawState.init with ⟨_, _, _⟩
            exact hgmem))⟩
  · have hsh : t ∈ (R.shuffle s2 (pd.teams .pot2)).1 := (hshuf s2 _).mem_iff.mpr h2m
    exact placePot_places hchoice _ _ _ _ h3 t hsh
  · have hsh : t ∈ (R.shuffle s1 (pd.teams .pot3)).1 := (hshuf s1 _).mem_iff.mpr h3m
    rcases placePot_places hchoice _ _ _ _ h2' t hsh with ⟨g, hgG, hgmem⟩
    exact ⟨g, hgG, placePot_mono _ _ _ _ h3 g t hgmem⟩
  · have hsh : t ∈ (R.shuffle s0 (pd.teams .pot4)).1 := (hshuf s0 _).mem_iff.mpr h4m
    rcases placePot_places hchoice _ _ _ _ h1' t hsh with ⟨g, hgG, hgmem⟩
    exact ⟨g, hgG, placePot_mono _ _ _ _ h3 g t
      (placePot_mono _ _ _ _ h2' g t hgmem)⟩

theorem massAux_inv {σ : Type} (R : RandSource σ) (cd : ConfDict) (pd : PotDict)
    (df_pots : Team → PotName) (target : Team)
    (hshuf : ∀ (s : σ) (l : List Team), ((R.shuffle s l).1).Perm l)
    (hchoice : ∀ (s : σ) (l : List GroupId), l ≠ [] → (R.choice s l).1 ∈ l)
    (htarget : target ∈ pd.pot1 ∨ target ∈ pd.pot2 ∨ target ∈ pd.pot3 ∨ target ∈ pd.pot4) :
    ∀ (num : Nat) (s : σ) (acc : MassAcc),
      sumCounts acc.combinations = acc.successful →
      sumCounts ((massAux R cd pd df_pots target num s acc).1.combinations) =
        (massAux R cd pd df_pots target num s acc).1.successful := by
  intro num
  induction num with
  | zero => intro s acc hacc; exact hacc
  | succ num ih =>
    intro s acc hacc
    rw [massAux]
    apply ih
    rcases hr : (simulateAux R cd pd MAX_ATTEMPTS_PER_SIMULATION s).1 with _ | gf
    · rw [massStep]
      exact hacc
    · rcases (simulateAux_some_iff R cd pd MAX_ATTEMPTS_PER_SIMULATION s gf).mp hr with
        ⟨k, _, _, st, hst, rfl⟩
      rcases attempt_covers hshuf hchoice hst target htarget with ⟨g, hgG, hgmem⟩
      have hfind : ∃ g', GROUPS.find? (fun g' => decide (target ∈ st.groupsFormed g')) =
          some g' := by
        have hsome : (GROUPS.find? (fun g' => decide (target ∈ st.groupsFormed g'))).isSome := by
          rw [List.find?_isSome]
          exact ⟨g, hgG, by simp [hgmem]⟩
        rcases hfo : GROUPS.find? (fun g' => decide (target ∈ st.groupsFormed g')) with _ | g'
        · rw [hfo] at hsome; simp at hsome
        · exact ⟨g', rfl⟩
      rcases hfind with ⟨g', hg'⟩
      rw [massStep]
      simp only [hg']
      simp only [sumCounts_incKey]
      simp only [sumCounts] at hacc
      simp [sumCounts, hacc]

/-- C8: after `run_mass_simulation` completes its runs, the sum of all
counts in the returned frequency table equals the returned success count
(given that the target team is in some pot of the validated input and
the randomness source behaves like Python's `random`), and processing a
failed run (engine returned an absent result) increments only the failure
counter, leaving the frequency table and the success counter untouched. -/
theorem claim_C8 {σ : Type} (R : RandSource σ) (cd : ConfDict) (pd : PotDict)
    (df_pots : Team → PotName) (target : Team) (num : Nat) (s : σ)
    (hshuf : ∀ (s : σ) (l : List Team), ((R.shuffle s l).1).Perm l)
    (hchoice : ∀ (s : σ) (l : List GroupId), l ≠ [] → (R.choice s l).1 ∈ l)
    (htarget : target ∈ pd.pot1 ∨ target ∈ pd.pot2 ∨ target ∈ pd.pot3 ∨ target ∈ pd.pot4) :
    (sumCounts ((run_mass_simulation R cd pd df_pots target num s).1.combinations) =
      (run_mass_simulation R cd pd df_pots target num s).1.successful) ∧
    (∀ acc : MassAcc, massStep df_pots target acc none =
      { combinations := acc.combinations, successful := acc.successful,
        failed := acc.failed + 1 }) := by
  constructor
  · exact massAux_inv R cd pd df_pots target hshuf hchoice htarget num s ⟨[], 0, 0⟩ rfl
  · intro acc
    rfl

/-! Witnesses for the engine invariants, at the synthetic 48-team instance. -/

theorem firstRand_shuffle_perm :
    ∀ (s : Unit) (l : List Team), ((firstRand.shuffle s l).1).Perm l :=
  fun _ l => List.Perm.refl l

theorem firstRand_choice_mem :
    ∀ (s : Unit) (l : List GroupId), l ≠ [] → (firstRand.choice s l).1 ∈ l := by
  intro s l h
  cases l with
  | nil => exact absurd rfl h
  | cons a t => exact List.mem_cons_self _ _

theorem pdW_disjoint : PotsDisjoint pdW := by
  unfold PotsDisjoint
  decide

theorem option_eq_some_getD {α : Type} (o : Option α) (d : α) (h : o.isSome = true) :
    o = some (o.getD d) := by
  cases o with
  | none => simp at h
  | some a => rfl

set_option maxRecDepth 10000 in
theorem gfW_success : simulate_single_draw firstRand cdW pdW 1 () = some gfW :=
  option_eq_some_getD _ _ (by decide)

/-- Witness for C1: group `"A"` of the concrete successful draw has 4 teams,
one from each pot. -/
theorem claim_C1_witness :
    (gfW "A").length = 4 ∧
    (gfW "A").countP (fun t => decide (t ∈ pdW.pot1)) = 1 ∧
    (gfW "A").countP (fun t => decide (t ∈ pdW.pot2)) = 1 ∧
    (gfW "A").countP (fun t => decide (t ∈ pdW.pot3)) = 1 ∧
    (gfW "A").countP (fun t => decide (t ∈ pdW.pot4)) = 1 :=
  claim_C1 firstRand cdW pdW 1 () gfW firstRand_shuffle_perm firstRand_choice_mem
    pdW_disjoint rfl rfl rfl rfl gfW_success "A" (by decide)

/-- Witness for C2 at the concrete successful draw, group `"A"`,
label `"UEFA"`. -/
theorem claim_C2_witness :
    confTeamCount cdW (gfW "A") "UEFA" ≤ (if "UEFA" = "UEFA" then 2 else 1) :=
  claim_C2 firstRand cdW pdW 1 () gfW firstRand_choice_mem gfW_success "A" "UEFA"

/-- Witness for C4 at the concrete instance whose Pot 1 contains the three
hosts. -/
theorem claim_C4_witness :
    ("Mexico" ∈ (placeHosts FIXED_HOSTS pdW.pot1 DrawState.init).2.groupsFormed "A" ∧
     "Canada" ∈ (placeHosts FIXED_HOSTS pdW.pot1 DrawState.init).2.groupsFormed "B" ∧
     "United States" ∈ (placeHosts FIXED_HOSTS pdW.pot1 DrawState.init).2.groupsFormed "D") ∧
    (simulate_single_draw firstRand cdW pdW 1 () = some gfW →
      "Mexico" ∈ gfW "A" ∧ "Canada" ∈ gfW "B" ∧ "United States" ∈ gfW "D") :=
  claim_C4 firstRand cdW pdW 1 () gfW (by decide) (by decide) (by decide)

/-- Witness for C8: one run of the driver on the synthetic instance, with
`"Mexico"` as target. -/
theorem claim_C8_witness :
    (sumCounts ((run_mass_simulation firstRand cdW pdW dfW "Mexico" 1 ()).1.combinations) =
      (run_mass_simulation firstRand cdW pdW dfW "Mexico" 1 ()).1.successful) ∧
    massStep dfW "Mexico" ⟨[], 0, 0⟩ none = ⟨[], 0, 1⟩ := by
  have h := claim_C8 firstRand cdW pdW dfW "Mexico" 1 () firstRand_shuffle_perm
    firstRand_choice_mem (Or.inl (by decide))
  exact ⟨h.1, h.2 ⟨[], 0, 0⟩⟩
